import Mathlib

/-!
Shallow embedding of the validation engine and correction-apply operation of
the data-alchemist-app repository.

The validators come from `src/lib/validators.ts`, the entity and rule shapes
from `src/lib/types.ts`, and the correction application from
`handleApplyCorrection` in `src/app/page.tsx`.

Modelling conventions:
* Entity rows (Client / Worker / Task) are typed records, mirroring the
  interfaces in `types.ts` (the ingestion layer coerces uploaded rows to
  these shapes, so array fields are always arrays and string fields strings).
* Business rules may come from untrusted AI output, so every rule field the
  validators touch is an `Option` (`none` models a missing / `undefined`
  property), and the JavaScript `||` fallbacks and truthiness guards of
  `validateRules` are modelled explicitly (`jsOrStr`, `jsOrInt`, ...).
* The single point where `validateRules` can actually throw (reading
  `pw.allowedPhases.includes` when `allowedPhases` is `undefined`) is
  modelled with `Except`: `Except.error` is a thrown `TypeError`.
* JavaScript `Set` iteration order is insertion order; `jsSet` reproduces it
  (keep the first occurrence of each element).
* `AttributesJSONError` is the truthiness of
  `client.AttributesJSON && client.AttributesJSON.error`, i.e. the
  parse-failure sentinel planted by the file parser.
-/

namespace DataAlchemist

/-- Severity of a validation issue (`'error' | 'warning'` in `types.ts`). -/
inductive Severity where
  | error
  | warning
deriving DecidableEq, Repr

/-- `ValidationError` from `types.ts`: `{ rowId, field, message, severity }`.
All emission sites in `validators.ts` use a string identifier as `rowId`. -/
structure ValidationError where
  rowId : String
  field : String
  message : String
  severity : Severity
deriving DecidableEq, Repr

/-- `Client` from `types.ts` (fields read by the validators). -/
structure Client where
  id : String := ""
  ClientID : String
  ClientName : String := ""
  PriorityLevel : Int
  RequestedTaskIDs : List String
  GroupTag : String := ""
  AttributesJSONError : Bool := false
deriving DecidableEq, Repr

/-- `Worker` from `types.ts` (fields read by the validators). -/
structure Worker where
  id : String := ""
  WorkerID : String
  WorkerName : String
  Skills : List String
  AvailableSlots : List Int := []
  MaxLoadPerPhase : Int := 0
  WorkerGroup : String := ""
  QualificationLevel : Int := 0
deriving DecidableEq, Repr

/-- `Task` from `types.ts` (fields read by the validators). -/
structure Task where
  id : String := ""
  TaskID : String
  TaskName : String := ""
  Category : String := ""
  Duration : Int := 1
  RequiredSkills : List String := []
  PreferredPhases : List Int := []
  MaxConcurrent : Int := 0
deriving DecidableEq, Repr

/-- A business rule as the validators actually see it: a `type` tag plus the
properties each checker reads.  Rules may originate from AI JSON, so every
property may be absent (`none`).  The alternate spellings `tasks`, `group`
and `minCount` are the fallbacks read in `validateRules`
(`coRunRule.taskIds || coRunRule.tasks`, `sr.groupTag || rule.group`,
`sr.minCommonSlots || rule.minCount`). -/
structure Rule where
  id : String := ""
  type : String
  description : String := ""
  taskIds : Option (List String) := none
  tasks : Option (List String) := none
  targetGroup : Option String := none
  groupTag : Option String := none
  group : Option String := none
  minCommonSlots : Option Int := none
  minCount : Option Int := none
  workerGroup : Option String := none
  maxSlotsPerPhase : Option Int := none
  taskId : Option String := none
  allowedPhases : Option (List Int) := none
deriving DecidableEq, Repr

/-- `AppData` from `types.ts` (the `validationErrors` output field is not an
input of the engine and is omitted). -/
structure AppData where
  clients : List Client
  workers : List Worker
  tasks : List Task
  rules : List Rule
deriving DecidableEq, Repr

/-! ## Entity validators (`validateClients`, `validateWorkers`, `validateTasks`) -/

/-- Message of the duplicate-identifier error:
`Duplicate <Kind> "<id>" found.` -/
def dupMsg (kind theId : String) : String :=
  "Duplicate " ++ kind ++ " \"" ++ theId ++ "\" found."

/-- Message of the uncovered-skill error. -/
def skillMsg (s : String) : String :=
  "No worker has the required skill: \"" ++ s ++ "\"."

/-- Per-client checks of `validateClients`: priority range, the
`AttributesJSON` parse-failure sentinel, and dangling `RequestedTaskIDs`
entries (falsy entries are skipped by `if (reqTaskId && ...)`). -/
def clientErrors (taskIds : List String) (c : Client) : List ValidationError :=
  (if c.PriorityLevel < 1 ∨ c.PriorityLevel > 5 then
    [⟨c.ClientID, "PriorityLevel",
      "PriorityLevel must be between 1 and 5, but is " ++ toString c.PriorityLevel ++ ".",
      .error⟩]
  else [])
  ++ (if c.AttributesJSONError then
    [⟨c.ClientID, "AttributesJSON", "The JSON format is invalid.", .error⟩]
  else [])
  ++ c.RequestedTaskIDs.flatMap (fun tid =>
    if tid ≠ "" ∧ tid ∉ taskIds then
      [⟨c.ClientID, "RequestedTaskIDs",
        "Requested TaskID \"" ++ tid ++ "\" does not exist.", .warning⟩]
    else [])

/-- `validateClients(clients, tasks)` from `validators.ts`. -/
def validateClients (clients : List Client) (tasks : List Task) : List ValidationError :=
  clients.flatMap (clientErrors (tasks.map Task.TaskID))

/-- Per-worker checks of `validateWorkers`: `!worker.WorkerName` (empty string
is falsy) emits an Error; `!worker.Skills || worker.Skills.length === 0`
emits a Warning. -/
def workerErrors (w : Worker) : List ValidationError :=
  (if w.WorkerName = "" then
    [⟨w.WorkerID, "WorkerName", "WorkerName cannot be empty.", .error⟩]
  else [])
  ++ (if w.Skills = [] then
    [⟨w.WorkerID, "Skills", "Worker must have at least one skill.", .warning⟩]
  else [])

/-- `validateWorkers(workers)` from `validators.ts`. -/
def validateWorkers (workers : List Worker) : List ValidationError :=
  workers.flatMap workerErrors

/-- Per-task check of `validateTasks`: `task.Duration < 1` emits an Error. -/
def taskErrors (t : Task) : List ValidationError :=
  if t.Duration < 1 then
    [⟨t.TaskID, "Duration",
      "Duration must be at least 1, but is " ++ toString t.Duration ++ ".", .error⟩]
  else []

/-- `validateTasks(tasks)` from `validators.ts`. -/
def validateTasks (tasks : List Task) : List ValidationError :=
  tasks.flatMap taskErrors

/-! ## Cross-entity validators (`validateSkillCoverage`, `validateDuplicateIds`) -/

/-- `workers.flatMap(w => w.Skills)` — the pool backing the
`allWorkerSkills` set of `validateSkillCoverage`. -/
def allWorkerSkills (workers : List Worker) : List String :=
  workers.flatMap Worker.Skills

/-- The error emitted for a required skill no worker possesses. -/
def skillErr (t : Task) (s : String) : ValidationError :=
  ⟨t.TaskID, "RequiredSkills", skillMsg s, .error⟩

/-- The per-task body of `validateSkillCoverage`: for each entry of
`RequiredSkills`, emit an error `if (requiredSkill && !allWorkerSkills.has(requiredSkill))`
(so an empty-string entry is skipped by truthiness). -/
def taskSkillErrors (skills : List String) (t : Task) : List ValidationError :=
  t.RequiredSkills.flatMap (fun s =>
    if s ≠ "" ∧ s ∉ skills then [skillErr t s] else [])

/-- `validateSkillCoverage(tasks, workers)` from `validators.ts`: returns
empty when either table is empty. -/
def validateSkillCoverage (tasks : List Task) (workers : List Worker) : List ValidationError :=
  if workers = [] ∨ tasks = [] then []
  else tasks.flatMap (taskSkillErrors (allWorkerSkills workers))

/-- The seen-set traversal shared by the three passes of
`validateDuplicateIds`: flag every occurrence of an identifier already seen,
then add the identifier to the seen set. -/
def dupAux {α : Type} (getId : α → String) (fieldName : String) :
    List α → List String → List ValidationError
  | [], _ => []
  | a :: rest, seen =>
    (if getId a ∈ seen then
      [⟨getId a, fieldName, dupMsg fieldName (getId a), .error⟩]
    else [])
    ++ dupAux getId fieldName rest (getId a :: seen)

/-- `validateDuplicateIds(data)` from `validators.ts`: three independent
seen-sets for clients, workers and tasks, outputs concatenated in that order. -/
def validateDuplicateIds (d : AppData) : List ValidationError :=
  dupAux Client.ClientID "ClientID" d.clients []
  ++ dupAux Worker.WorkerID "WorkerID" d.workers []
  ++ dupAux Task.TaskID "TaskID" d.tasks []

/-! ## Rule evaluator (`validateRules`) -/

/-- JavaScript `a || b` on possibly-missing strings: the empty string is
falsy and falls through to `b`. -/
def jsOrStr : Option String → Option String → Option String
  | some s, b => if s = "" then b else some s
  | none, b => b

/-- JavaScript `a || b` on possibly-missing numbers: `0` is falsy and falls
through to `b`. -/
def jsOrInt : Option Int → Option Int → Option Int
  | some n, b => if n = 0 then b else some n
  | none, b => b

/-- Truthiness of a possibly-missing string (`undefined` and `""` are falsy). -/
def strTruthy : Option String → Bool
  | some s => !(s == "")
  | none => false

/-- Truthiness of a possibly-missing number (`undefined` and `0` are falsy). -/
def intTruthy : Option Int → Bool
  | some n => !(n == 0)
  | none => false

/-- JavaScript `new Set(l)` materialised as a list: keep the first occurrence
of each element, in insertion order. -/
def jsSet {α : Type} [DecidableEq α] (l : List α) : List α :=
  l.foldl (fun acc a => if a ∈ acc then acc else acc ++ [a]) []

/-- `String.intercalate ", "`, the `join(', ')` used in rule messages. -/
def joinStrs (l : List String) : String :=
  String.intercalate ", " l

/-- `join(', ')` over numbers. -/
def joinInts (l : List Int) : String :=
  String.intercalate ", " (l.map toString)

/-- The co-run effective task-id list:
`coRunRule.taskIds || coRunRule.tasks` (a present array is always truthy,
even when empty). -/
def coRunTaskIds (r : Rule) : Option (List String) :=
  r.taskIds.orElse (fun _ => r.tasks)

/-- The per-client body of the co-run check: intersect the rule's task ids
with the client's requested set and warn when the intersection is non-empty
but incomplete.  (`Array.isArray(client.RequestedTaskIDs)` always holds for
the typed rows.) -/
def coRunClientCheck (ts : List String) (c : Client) : List ValidationError :=
  if 0 < (ts.filter (fun tid => tid ∈ c.RequestedTaskIDs)).length ∧
      (ts.filter (fun tid => tid ∈ c.RequestedTaskIDs)).length < ts.length then
    [⟨c.ClientID, "RequestedTaskIDs",
      "Rule Violation: Client requested some, but not all, required co-run tasks: "
        ++ joinStrs ts ++ ".",
      .warning⟩]
  else []

/-- The co-run branch of `validateRules`: skipped entirely when neither
`taskIds` nor `tasks` is an array. -/
def coRunRuleErrors (d : AppData) (r : Rule) : List ValidationError :=
  match coRunTaskIds r with
  | none => []
  | some ts => d.clients.flatMap (coRunClientCheck ts)

/-- `sr.targetGroup || 'WorkerGroup'`. -/
def effTargetGroup (r : Rule) : String :=
  match r.targetGroup with
  | some t => if t = "" then "WorkerGroup" else t
  | none => "WorkerGroup"

/-- The `reduce` of `validateRules`' slot-restriction branch: pairwise
intersection of the member slot sets, seeded with the first set. -/
def commonSlotsOf : List (List Int) → List Int
  | [] => []
  | s :: rest => rest.foldl (fun acc cur => acc.filter (fun slot => slot ∈ cur)) s

/-- The guarded body of the slot-restriction branch (reached when the
truthiness guard `groupTag && minCommonSlots` passed).  Target entities are
`(id, AvailableSlots)` pairs; clients have no `AvailableSlots` property, so
`entity.AvailableSlots || []` yields `[]` for them.  Groups of fewer than two
members are skipped. -/
def slotBody (d : AppData) (g : String) (m : Int) (tg : String) : List ValidationError :=
  let targetEntities :=
    if tg = "ClientGroup" then
      (d.clients.filter (fun c => c.GroupTag = g)).map (fun c => (c.id, ([] : List Int)))
    else
      (d.workers.filter (fun w => w.WorkerGroup = g)).map (fun w => (w.id, w.AvailableSlots))
  if 2 ≤ targetEntities.length then
    let allSlots := targetEntities.map (fun e => jsSet e.2)
    let commonSlots := commonSlotsOf allSlots
    if (commonSlots.length : Int) < m then
      targetEntities.map (fun e =>
        ⟨e.1, "AvailableSlots",
          "Rule Violation: Group \x27" ++ g ++ "\x27 has only "
            ++ toString commonSlots.length ++ " common slots, but rule requires "
            ++ toString m ++ ".",
          .warning⟩)
    else []
  else []

/-- The slot-restriction branch of `validateRules`: resolve the `||`
fallbacks for `groupTag` and `minCommonSlots`, then run the body only when
both resolved values are truthy. -/
def slotRuleErrors (d : AppData) (r : Rule) : List ValidationError :=
  match jsOrStr r.groupTag r.group, jsOrInt r.minCommonSlots r.minCount with
  | some g, some m =>
    if g ≠ "" ∧ m ≠ 0 then slotBody d g m (effTargetGroup r) else []
  | some _, none => []
  | none, _ => []

/-- `t.TaskID === pw.taskId` — false whenever `taskId` is absent. -/
def pwTaskMatch (r : Rule) (t : Task) : Bool :=
  match r.taskId with
  | some tid => t.TaskID == tid
  | none => false

/-- The error emitted by the phase-window branch on a hard conflict. -/
def pwErr (t : Task) (aps : List Int) : ValidationError :=
  ⟨t.TaskID, "PreferredPhases",
    "Conflict: Task prefers [" ++ joinInts t.PreferredPhases
      ++ "] but rule restricts it to [" ++ joinInts aps ++ "].",
    .error⟩

/-- The phase-window branch of `validateRules`.  When the found task has a
non-empty `PreferredPhases`, the source evaluates
`task.PreferredPhases.filter(p => pw.allowedPhases.includes(p))`; if
`allowedPhases` is absent this throws a `TypeError`, modelled as
`Except.error`. -/
def phaseWindowRuleErrors (d : AppData) (r : Rule) :
    Except String (List ValidationError) :=
  match d.tasks.find? (pwTaskMatch r) with
  | none => .ok []
  | some t =>
    if t.PreferredPhases = [] then .ok []
    else
      match r.allowedPhases with
      | none =>
        .error "TypeError: Cannot read properties of undefined (reading \x27includes\x27)"
      | some aps =>
        if t.PreferredPhases.filter (fun p => p ∈ aps) = [] then .ok [pwErr t aps]
        else .ok []

/-- The body of the `rules.forEach` loop of `validateRules` for one rule:
the branch matching the rule's `type` tag runs (the `loadLimit` branch only
writes a `console.warn` diagnostic and never emits an issue).  Only the
phase-window branch can throw. -/
def ruleErrors (d : AppData) (r : Rule) : Except String (List ValidationError) :=
  let coRunErrs := if r.type = "coRun" then coRunRuleErrors d r else []
  let slotErrs :=
    if r.type = "slotRestriction" ∨ r.type = "slot" then slotRuleErrors d r else []
  match (if r.type = "phaseWindow" then phaseWindowRuleErrors d r else .ok []) with
  | .error e => .error e
  | .ok pwErrs => .ok (coRunErrs ++ slotErrs ++ pwErrs)

/-- The `rules.forEach` loop: issues accumulate in rule-list order; a thrown
`TypeError` aborts the whole pass. -/
def validateRulesAux (d : AppData) : List Rule → Except String (List ValidationError)
  | [] => .ok []
  | r :: rs =>
    match ruleErrors d r with
    | .error e => .error e
    | .ok es =>
      match validateRulesAux d rs with
      | .error e => .error e
      | .ok rest => .ok (es ++ rest)

/-- `validateRules(data)` from `validators.ts`. -/
def validateRules (d : AppData) : Except String (List ValidationError) :=
  validateRulesAux d d.rules

/-! ## Orchestrator (`validateAllData`) -/

/-- `validateAllData(data)` from `validators.ts`: concatenation, in push
order, of the entity validators, the cross-entity validators and the rule
checks; a `TypeError` thrown inside `validateRules` propagates out of the
whole call. -/
def validateAllData (d : AppData) : Except String (List ValidationError) :=
  match validateRules d with
  | .error e => .error e
  | .ok ruleErrs =>
    .ok (validateClients d.clients d.tasks
      ++ validateWorkers d.workers
      ++ validateTasks d.tasks
      ++ validateSkillCoverage d.tasks d.workers
      ++ validateDuplicateIds d
      ++ ruleErrs)

/-- The issue list of a completed pass (`[]` for an aborted one). -/
def okIssues : Except String (List ValidationError) → List ValidationError
  | .ok l => l
  | .error _ => []

/-- The `(rowId, field, severity, message)` tuple of an issue, the key under
which consumers treat the output as a multiset. -/
def issueKey (e : ValidationError) : String × String × Severity × String :=
  (e.rowId, e.field, e.severity, e.message)

/-! ## Correction application (`handleApplyCorrection` in `src/app/page.tsx`)

`handleApplyCorrection` works on the raw `DataRow` objects: dynamic field
access `row[field]`, `Array.isArray`, a `Set<string | number>` union, and an
object-spread write-back.  Rows are modelled as association lists of field
name to value; per the entity schema, array-valued fields hold strings or
numbers, so a value is a primitive or an array of primitives. -/

/-- A JavaScript primitive stored in a row field (`string | number`). -/
inductive Prim where
  | s (v : String)
  | n (v : Int)
deriving DecidableEq, Repr

/-- A row field value: a primitive or an array of primitives. -/
inductive Cell where
  | prim (p : Prim)
  | arr (l : List Prim)
deriving DecidableEq, Repr

/-- A `DataRow`: a JavaScript object as a field-name/value association list
(`id` is just another key). -/
abbrev Row : Type := List (String × Cell)

/-- `row[field]` — the first binding of the key, as in a JavaScript object. -/
def getField (r : Row) (k : String) : Option Cell :=
  (r.find? (fun p => p.1 == k)).map (fun p => p.2)

/-- `{ ...row, [field]: v }`: replace the value of an existing key in place,
or append a new binding. -/
def setField (r : Row) (k : String) (v : Cell) : Row :=
  if r.any (fun p => p.1 == k) then
    r.map (fun p => if p.1 == k then (k, v) else p)
  else r ++ [(k, v)]

/-- `row.id === rowId` (strict equality against the correction's
`string | number` row id; an absent or non-primitive `id` never matches). -/
def rowMatches (target : Prim) (r : Row) : Bool :=
  getField r "id" == some (.prim target)

/-- A `Correction` as `handleApplyCorrection` destructures it.  `entityType`
and `correctionType` are plain strings at runtime (the objects are parsed
from AI JSON without schema checks). -/
structure Correction where
  rowId : Prim
  entityType : String
  field : String
  newValue : Cell
  correctionType : String
deriving DecidableEq, Repr

/-- The scalar-to-sequence coercion
`Array.isArray(newValue) ? newValue : [newValue]`. -/
def coerceVals : Cell → List Prim
  | .arr l => l
  | .prim p => [p]

/-- The per-row write of `handleApplyCorrection`: for `'APPEND'` on an
array-valued field, seed a `Set` with the existing elements, add the new
values and write back `Array.from(set)`; any other case (including `'APPEND'`
on a non-array field) is the plain overwrite `{ ...row, [field]: newValue }`. -/
def updateRow (r : Row) (c : Correction) : Row :=
  if c.correctionType = "APPEND" then
    match getField r c.field with
    | some (.arr l) => setField r c.field (.arr (jsSet (l ++ coerceVals c.newValue)))
    | _ => setField r c.field c.newValue
  else setField r c.field c.newValue

/-- `findIndex` + `map((row, index) => index === rowIndex ? ... : row)`:
update the first row whose `id` matches, leave every other row alone;
`none` models `rowIndex === -1`. -/
def updateTable (c : Correction) : List Row → Option (List Row)
  | [] => none
  | r :: rs =>
    if rowMatches c.rowId r then some (updateRow r c :: rs)
    else (updateTable c rs).map (fun rs2 => r :: rs2)

/-- The application state `handleApplyCorrection` updates: the `appData`
object of `page.tsx`, whose keys are exactly `clients`, `workers`, `tasks`
and `rules`. -/
structure AppState where
  clients : List Row
  workers : List Row
  tasks : List Row
  rules : List Row
deriving DecidableEq, Repr

/-- `prev[entityType]`: dynamic key lookup on the state object.  Any other
key yields `undefined` (`none`); note that `"rules"` is a real key. -/
def stateGet (st : AppState) (k : String) : Option (List Row) :=
  if k = "clients" then some st.clients
  else if k = "workers" then some st.workers
  else if k = "tasks" then some st.tasks
  else if k = "rules" then some st.rules
  else none

/-- `{ ...prev, [entityType]: updatedEntityArray }`. -/
def stateSet (st : AppState) (k : String) (v : List Row) : AppState :=
  if k = "clients" then { st with clients := v }
  else if k = "workers" then { st with workers := v }
  else if k = "tasks" then { st with tasks := v }
  else if k = "rules" then { st with rules := v }
  else st

/-- `handleApplyCorrection(correction)` from `page.tsx` as a state
transformer: bail out unchanged when `prev[entityType]` is absent
(`if (!entityArray) return prev` — an empty array is truthy and proceeds) or
when no row's `id` matches (`rowIndex === -1`); otherwise rewrite the first
matching row with `updateRow` and write the table back. -/
def applyCorrection (st : AppState) (c : Correction) : AppState :=
  match stateGet st c.entityType with
  | none => st
  | some entityArray =>
    match updateTable c entityArray with
    | none => st
    | some updated => stateSet st c.entityType updated

/-! ## Helper lemmas -/

/-- Membership in the orchestrator output of an issue emitted by
`validateWorkers`. -/
theorem mem_issues_of_mem_validateWorkers (d : AppData) (issues : List ValidationError)
    (h : validateAllData d = .ok issues) :
    ∀ e ∈ validateWorkers d.workers, e ∈ issues := by
  unfold validateAllData at h
  cases hr : validateRules d with
  | error e0 => rw [hr] at h; exact absurd h (by simp)
  | ok rl =>
    rw [hr] at h
    injection h with h
    subst h
    intro e he
    simp [he]

/-- The error emitted by `validateWorkers` for a nameless worker is in its
output. -/
theorem workerNameErr_mem {workers : List Worker} {w : Worker}
    (hw : w ∈ workers) (hname : w.WorkerName = "") :
    (⟨w.WorkerID, "WorkerName", "WorkerName cannot be empty.", .error⟩ : ValidationError)
      ∈ validateWorkers workers := by
  unfold validateWorkers
  rw [List.mem_flatMap]
  refine ⟨w, hw, ?_⟩
  unfold workerErrors
  rw [if_pos hname]
  simp

/-- The warning emitted by `validateWorkers` for a skill-less worker is in
its output. -/
theorem workerSkillsWarn_mem {workers : List Worker} {w : Worker}
    (hw : w ∈ workers) (hskills : w.Skills = []) :
    (⟨w.WorkerID, "Skills", "Worker must have at least one skill.", .warning⟩ : ValidationError)
      ∈ validateWorkers workers := by
  unfold validateWorkers
  rw [List.mem_flatMap]
  refine ⟨w, hw, ?_⟩
  unfold workerErrors
  rw [if_pos hskills]
  simp

/-! ## Claims -/

/-- C1: the validation orchestrator is deterministic: running
`validateAllData` twice on the same `AppData` value yields the same result
(hence the same issue sequence and the same multiset of
`(rowId, field, severity, message)` tuples).  Purity with respect to the
input holds by construction of the embedding: the source function only
pushes into a freshly allocated local array and never writes to its
argument. -/
theorem validateAllData_deterministic (d : AppData) :
    validateAllData d = validateAllData d ∧
    (okIssues (validateAllData d)).map issueKey
      = (okIssues (validateAllData d)).map issueKey :=
  ⟨rfl, rfl⟩

/-- C2 (amended): a completed pass with zero `error`-severity issues
guarantees that every worker has a non-empty `WorkerName`; it does **not**
guarantee non-empty `Skills`, because an empty `Skills` list is emitted at
`warning` severity — that invariant only follows when the pass reports no
issues at all. -/
theorem zero_errors_worker_invariants (d : AppData) (issues : List ValidationError)
    (h : validateAllData d = .ok issues) :
    ((∀ i ∈ issues, i.severity ≠ .error) → ∀ w ∈ d.workers, w.WorkerName ≠ "") ∧
    (issues = [] → ∀ w ∈ d.workers, w.WorkerName ≠ "" ∧ w.Skills ≠ []) := by
  have hsub := mem_issues_of_mem_validateWorkers d issues h
  constructor
  · intro hne w hw hname
    exact hne _ (hsub _ (workerNameErr_mem hw hname)) rfl
  · intro hempty w hw
    constructor
    · intro hname
      have := hsub _ (workerNameErr_mem hw hname)
      rw [hempty] at this
      exact absurd this (List.not_mem_nil _)
    · intro hskills
      have := hsub _ (workerSkillsWarn_mem hw hskills)
      rw [hempty] at this
      exact absurd this (List.not_mem_nil _)

/-- Witness for C2: on a dataset with one fully populated worker the pass
returns no issues and the theorem yields the name invariant. -/
theorem zero_errors_worker_invariants_witness :
    ({ WorkerID := "W1", WorkerName := "Bob", Skills := ["x"] } : Worker).WorkerName ≠ "" :=
  (zero_errors_worker_invariants
      ⟨[], [{ WorkerID := "W1", WorkerName := "Bob", Skills := ["x"] }], [], []⟩ []
      rfl).1
    (by decide)
    { WorkerID := "W1", WorkerName := "Bob", Skills := ["x"] }
    (by decide)

/-- The dataset refuting C2 as stated: one worker with a name but no
skills. -/
def dC2 : AppData :=
  ⟨[], [{ WorkerID := "W1", WorkerName := "Bob", Skills := [] }], [], []⟩

/-- Counterexample to C2 as stated: `validateAllData` on `dC2` completes
with zero `error`-severity issues, yet the worker's `Skills` list is empty
(the empty-skills issue is only a `warning`). -/
theorem zero_errors_worker_invariants_cex :
    (okIssues (validateAllData dC2)).countP (fun i => i.severity == Severity.error) = 0 ∧
    (validateAllData dC2).isOk = true ∧
    dC2.workers.countP (fun w => w.Skills == ([] : List String)) = 1 := by
  decide

/-! ## Duplicate-identifier lemmas (C5) -/

/-- The duplicate-ID issue recogniser: an `error` on field `fld` attached to
row `x`. -/
def dupPred (fld x : String) : ValidationError → Bool :=
  fun e => e.rowId == x && e.field == fld && e.severity == Severity.error

/-- Every issue emitted by `dupAux` carries the pass's field name and
`error` severity. -/
theorem mem_dupAux {α : Type} {getId : α → String} {fld : String} :
    ∀ {l : List α} {seen : List String} {e : ValidationError},
      e ∈ dupAux getId fld l seen → e.field = fld ∧ e.severity = .error
  | [], _, _, h => absurd h (List.not_mem_nil _)
  | a :: t, seen, e, h => by
    rw [dupAux, List.mem_append] at h
    rcases h with h | h
    · by_cases hs : getId a ∈ seen
      · rw [if_pos hs, List.mem_singleton] at h
        subst h
        exact ⟨rfl, rfl⟩
      · rw [if_neg hs] at h
        exact absurd h (List.not_mem_nil _)
    · exact mem_dupAux h

/-- A `dupAux` pass over a different field name contributes nothing to the
count for `fld`. -/
theorem dupAux_countP_other {α : Type} {getId : α → String} {fld' fld x : String}
    (hne : fld' ≠ fld) (l : List α) (seen : List String) :
    (dupAux getId fld' l seen).countP (dupPred fld x) = 0 := by
  rw [List.countP_eq_zero]
  intro e he
  have hf := (mem_dupAux he).1
  simp [dupPred, hf, hne]

/-- The seen-set count identity of `dupAux`: with the identifier `x` already
seen every occurrence is flagged; with a fresh seen set the first occurrence
escapes. -/
theorem dupAux_countP {α : Type} (getId : α → String) (fld x : String) :
    ∀ (l : List α) (seen : List String),
      (dupAux getId fld l seen).countP (dupPred fld x)
        = if x ∈ seen then l.countP (fun a => getId a == x)
          else l.countP (fun a => getId a == x) - 1
  | [], seen => by
    simp only [dupAux, List.countP_nil]
    split <;> simp
  | a :: t, seen => by
    have IH := dupAux_countP getId fld x t (getId a :: seen)
    rw [dupAux, List.countP_append, List.countP_cons, IH]
    by_cases hga : getId a = x
    · subst hga
      rw [if_pos (List.mem_cons_self _ _)]
      have hpa : dupPred fld (getId a)
          (⟨getId a, fld, dupMsg fld (getId a), .error⟩ : ValidationError) = true := by
        simp [dupPred]
      by_cases hs : getId a ∈ seen
      · rw [if_pos hs, if_pos hs]
        simp [hpa, Nat.add_comm]
      · rw [if_neg hs, if_neg hs]
        simp
    · have hblock :
          (if getId a ∈ seen then
            [(⟨getId a, fld, dupMsg fld (getId a), .error⟩ : ValidationError)]
          else []).countP (dupPred fld x) = 0 := by
        split
        · simp [dupPred, hga]
        · simp
      rw [hblock]
      have hpa : (getId a == x) = false := by simp [hga]
      rw [hpa]
      by_cases hx : x ∈ seen
      · rw [if_pos (List.mem_cons.mpr (Or.inr hx)), if_pos hx]
        simp
      · rw [if_neg ?hne, if_neg hx]
        · simp
        case hne =>
          intro h
          rcases List.mem_cons.mp h with h1 | h1
          · exact hga h1.symm
          · exact hx h1

/-- With pairwise-distinct identifiers (and none of them pre-seen) a
`dupAux` pass emits nothing. -/
theorem dupAux_eq_nil {α : Type} (getId : α → String) (fld : String) :
    ∀ (l : List α) (seen : List String), (l.map getId).Nodup →
      (∀ a ∈ l, getId a ∉ seen) → dupAux getId fld l seen = []
  | [], _, _, _ => rfl
  | a :: t, seen, hnd, hsn => by
    rw [dupAux, if_neg (hsn a (List.mem_cons_self a t)), List.nil_append]
    rw [List.map_cons, List.nodup_cons] at hnd
    apply dupAux_eq_nil getId fld t (getId a :: seen) hnd.2
    intro b hb
    rw [List.mem_cons]
    push_neg
    refine ⟨?_, hsn b (List.mem_cons_of_mem a hb)⟩
    intro heq
    exact hnd.1 (heq ▸ List.mem_map_of_mem getId hb)

/-- C5: duplicate-ID detection.  For each of the three tables the number of
duplicate-ID `error`s attached to identifier `x` is exactly one per
occurrence of `x` after the first (so the first occurrence is never flagged,
each later one exactly once), and a dataset whose identifiers are unique
within each table yields zero duplicate-ID errors. -/
theorem duplicate_id_detection (d : AppData) (x : String) :
    (validateDuplicateIds d).countP (dupPred "ClientID" x)
        = d.clients.countP (fun c => c.ClientID == x) - 1 ∧
    (validateDuplicateIds d).countP (dupPred "WorkerID" x)
        = d.workers.countP (fun w => w.WorkerID == x) - 1 ∧
    (validateDuplicateIds d).countP (dupPred "TaskID" x)
        = d.tasks.countP (fun t => t.TaskID == x) - 1 ∧
    ((d.clients.map Client.ClientID).Nodup → (d.workers.map Worker.WorkerID).Nodup →
      (d.tasks.map Task.TaskID).Nodup → validateDuplicateIds d = []) := by
  unfold validateDuplicateIds
  refine ⟨?_, ?_, ?_, ?_⟩
  · rw [List.countP_append, List.countP_append]
    rw [dupAux_countP Client.ClientID "ClientID" x d.clients []]
    rw [dupAux_countP_other (by decide) d.workers []]
    rw [dupAux_countP_other (by decide) d.tasks []]
    simp
  · rw [List.countP_append, List.countP_append]
    rw [dupAux_countP Worker.WorkerID "WorkerID" x d.workers []]
    rw [dupAux_countP_other (by decide) d.clients []]
    rw [dupAux_countP_other (by decide) d.tasks []]
    simp
  · rw [List.countP_append, List.countP_append]
    rw [dupAux_countP Task.TaskID "TaskID" x d.tasks []]
    rw [dupAux_countP_other (by decide) d.clients []]
    rw [dupAux_countP_other (by decide) d.workers []]
    simp
  · intro hc hw ht
    rw [dupAux_eq_nil Client.ClientID "ClientID" d.clients [] hc (by simp)]
    rw [dupAux_eq_nil Worker.WorkerID "WorkerID" d.workers [] hw (by simp)]
    rw [dupAux_eq_nil Task.TaskID "TaskID" d.tasks [] ht (by simp)]
    rfl

/-- The two-duplicate dataset of the spec example. -/
def dDup : AppData :=
  ⟨[{ ClientID := "C1", PriorityLevel := 3, RequestedTaskIDs := [] },
    { ClientID := "C1", PriorityLevel := 3, RequestedTaskIDs := [] }], [], [], []⟩

/-- An all-unique dataset. -/
def dUniq : AppData :=
  ⟨[{ ClientID := "C1", PriorityLevel := 3, RequestedTaskIDs := [] }],
   [{ WorkerID := "W1", WorkerName := "A", Skills := ["x"] }],
   [{ TaskID := "T1" }], []⟩

/-- Witness for C5: two clients sharing `"C1"` yield one duplicate error
(`2 - 1`), and the all-unique dataset yields none. -/
theorem duplicate_id_detection_witness :
    (validateDuplicateIds dDup).countP (dupPred "ClientID" "C1")
        = dDup.clients.countP (fun c => c.ClientID == "C1") - 1 ∧
    validateDuplicateIds dUniq = [] ∧
    (validateDuplicateIds dDup).countP (dupPred "ClientID" "C1") = 1 :=
  ⟨(duplicate_id_detection dDup "C1").1,
   (duplicate_id_detection dUniq "C1").2.2.2 (by decide) (by decide) (by decide),
   by decide⟩

/-! ## Skill-coverage lemmas (C7) -/

/-- A skill is absent from the worker-skill pool exactly when no worker
possesses it. -/
theorem not_mem_allWorkerSkills (ws : List Worker) (s : String) :
    s ∉ allWorkerSkills ws ↔ ∀ w ∈ ws, s ∉ w.Skills := by
  unfold allWorkerSkills
  rw [List.mem_flatMap]
  push_neg
  rfl

/-- Every issue of a per-task skill-coverage block is an `error` on that
task's `RequiredSkills` field. -/
theorem mem_taskSkillErrors (A : List String) (t : Task) :
    ∀ e ∈ taskSkillErrors A t,
      e.rowId = t.TaskID ∧ e.field = "RequiredSkills" ∧ e.severity = .error := by
  intro e he
  unfold taskSkillErrors at he
  rw [List.mem_flatMap] at he
  rcases he with ⟨s, _, hins⟩
  by_cases h : s ≠ "" ∧ s ∉ A
  · rw [if_pos h, List.mem_singleton] at hins
    subst hins
    exact ⟨rfl, rfl, rfl⟩
  · rw [if_neg h] at hins
    exact absurd hins (List.not_mem_nil _)

/-- Length of a per-task skill-coverage block: one issue per non-empty,
uncovered entry of the given list. -/
theorem skill_block_length (A : List String) (t : Task) :
    ∀ l : List String,
      (l.flatMap (fun s => if s ≠ "" ∧ s ∉ A then [skillErr t s] else [])).length
        = l.countP (fun s => decide (s ≠ "" ∧ s ∉ A))
  | [] => rfl
  | s :: l => by
    rw [List.flatMap_cons, List.length_append, skill_block_length A t l, List.countP_cons]
    by_cases h : s ≠ "" ∧ s ∉ A
    · rw [if_pos h]
      simp [h, Nat.add_comm]
    · rw [if_neg h]
      simp [h]

/-- C7 (amended): `validateSkillCoverage` returns `[]` whenever either table
is empty; otherwise it is the concatenation of per-task blocks, every issue
of a block is an `error` on that task's `RequiredSkills`, the number of
issues in a task's block is exactly the number of **non-empty** entries of
its `RequiredSkills` that no worker possesses (so covered entries emit
nothing), and each such uncovered entry's error is present.  (An
empty-string entry is skipped by the truthiness guard
`if (requiredSkill && ...)`.) -/
theorem skill_coverage_spec (ts : List Task) (ws : List Worker) :
    ((ws = [] ∨ ts = []) → validateSkillCoverage ts ws = []) ∧
    (ws ≠ [] → ts ≠ [] →
      validateSkillCoverage ts ws = ts.flatMap (taskSkillErrors (allWorkerSkills ws)) ∧
      (∀ t ∈ ts, ∀ e ∈ taskSkillErrors (allWorkerSkills ws) t,
        e.rowId = t.TaskID ∧ e.field = "RequiredSkills" ∧ e.severity = .error) ∧
      (∀ t ∈ ts,
        (taskSkillErrors (allWorkerSkills ws) t).length
          = t.RequiredSkills.countP (fun s => decide (s ≠ "" ∧ ∀ w ∈ ws, s ∉ w.Skills))) ∧
      (∀ t ∈ ts, ∀ s ∈ t.RequiredSkills, s ≠ "" → (∀ w ∈ ws, s ∉ w.Skills) →
        skillErr t s ∈ taskSkillErrors (allWorkerSkills ws) t)) := by
  constructor
  · intro h
    unfold validateSkillCoverage
    rw [if_pos h]
  · intro hws hts
    refine ⟨?_, ?_, ?_, ?_⟩
    · unfold validateSkillCoverage
      rw [if_neg (fun h => h.elim hws hts)]
    · intro t _
      exact mem_taskSkillErrors (allWorkerSkills ws) t
    · intro t _
      have hlen := skill_block_length (allWorkerSkills ws) t t.RequiredSkills
      unfold taskSkillErrors
      rw [hlen]
      apply List.countP_congr
      intro s _
      simp only [decide_eq_true_eq]
      constructor
      · intro ⟨h1, h2⟩
        exact ⟨h1, (not_mem_allWorkerSkills ws s).mp h2⟩
      · intro ⟨h1, h2⟩
        exact ⟨h1, (not_mem_allWorkerSkills ws s).mpr h2⟩
    · intro t _ s hs hne hnc
      unfold taskSkillErrors
      rw [List.mem_flatMap]
      refine ⟨s, hs, ?_⟩
      rw [if_pos ⟨hne, (not_mem_allWorkerSkills ws s).mpr hnc⟩]
      exact List.mem_singleton_self _

/-- Spec example for C7: a task requiring `"welding"`. -/
def tWeld : Task := { TaskID := "T1", RequiredSkills := ["welding"] }

/-- Spec example for C7: one worker who cannot weld. -/
def wsNoWeld : List Worker := [{ WorkerID := "W1", WorkerName := "A", Skills := ["x"] }]

/-- Witness for C7: with `"welding"` required and covered by nobody, the
task's block holds exactly one issue, and an empty worker table
short-circuits to `[]`. -/
theorem skill_coverage_spec_witness :
    (taskSkillErrors (allWorkerSkills wsNoWeld) tWeld).length
        = tWeld.RequiredSkills.countP
            (fun s => decide (s ≠ "" ∧ ∀ w ∈ wsNoWeld, s ∉ w.Skills)) ∧
    (taskSkillErrors (allWorkerSkills wsNoWeld) tWeld).length = 1 ∧
    validateSkillCoverage [tWeld] [] = [] :=
  ⟨((skill_coverage_spec [tWeld] wsNoWeld).2 (by decide) (by decide)).2.2.1 tWeld (by decide),
   by decide,
   (skill_coverage_spec [tWeld] []).1 (Or.inl rfl)⟩

/-- The row refuting C7 as stated: an empty-string entry in
`RequiredSkills`. -/
def tC7 : Task := { TaskID := "T1", RequiredSkills := [""] }

/-- The worker table refuting C7 as stated: non-empty, possessing no
empty-string skill. -/
def wC7 : Worker := { WorkerID := "W1", WorkerName := "A", Skills := ["x"] }

/-- Counterexample to C7 as stated: the entry `""` of `tC7.RequiredSkills`
is possessed by no worker, both tables are non-empty, and yet
`validateSkillCoverage` emits no issue at all (the claim demands exactly one
error for this entry). -/
theorem skill_coverage_cex :
    validateSkillCoverage [tC7] [wC7] = [] ∧
    "" ∈ tC7.RequiredSkills ∧ "" ∉ wC7.Skills ∧
    ([tC7] : List Task) ≠ [] ∧ ([wC7] : List Worker) ≠ [] := by
  decide

/-! ## Rule-evaluator reduction lemmas -/

/-- On a `coRun`-typed rule the evaluator runs exactly the co-run branch. -/
theorem ruleErrors_coRun (d : AppData) (r : Rule) (htype : r.type = "coRun") :
    ruleErrors d r = .ok (coRunRuleErrors d r) := by
  unfold ruleErrors
  rw [htype, if_pos rfl, if_neg (by decide), if_neg (by decide)]
  simp

/-- On a `phaseWindow`-typed rule the evaluator is exactly the phase-window
branch (including its possible throw). -/
theorem ruleErrors_phaseWindow (d : AppData) (r : Rule) (htype : r.type = "phaseWindow") :
    ruleErrors d r = phaseWindowRuleErrors d r := by
  unfold ruleErrors
  rw [htype, if_neg (by decide), if_neg (by decide), if_pos rfl]
  cases hpw : phaseWindowRuleErrors d r <;> simp

/-- On a `slotRestriction`- or `slot`-typed rule the evaluator runs exactly
the slot-restriction branch. -/
theorem ruleErrors_slot (d : AppData) (r : Rule)
    (htype : r.type = "slotRestriction" ∨ r.type = "slot") :
    ruleErrors d r = .ok (slotRuleErrors d r) := by
  unfold ruleErrors
  rcases htype with h | h <;>
    rw [h, if_neg (by decide), if_pos (by decide), if_neg (by decide)] <;> simp

/-- A rule whose `type` tag matches no checker contributes nothing. -/
theorem ruleErrors_other (d : AppData) (r : Rule)
    (h1 : r.type ≠ "coRun") (h2 : r.type ≠ "slotRestriction") (h3 : r.type ≠ "slot")
    (h4 : r.type ≠ "phaseWindow") :
    ruleErrors d r = .ok [] := by
  unfold ruleErrors
  rw [if_neg h1, if_neg (by rintro (h | h) <;> [exact h2 h; exact h3 h]), if_neg h4]
  simp

/-- C6: the co-run check.  On a `coRun` rule with `taskIds` an array `ts`,
the evaluator runs the per-client check over all clients, and a given client
gets an issue iff the intersection of its `RequestedTaskIDs` with `ts` is
non-empty yet misses some member of `ts`; any emitted issue is a `warning`
on that client's `RequestedTaskIDs`, and each client contributes at most one
issue for the rule. -/
theorem coRun_partial_commitment (d : AppData) (r : Rule) (ts : List String) (c : Client)
    (htype : r.type = "coRun") (hts : r.taskIds = some ts) (_hc : c ∈ d.clients) :
    ruleErrors d r = .ok (d.clients.flatMap (coRunClientCheck ts)) ∧
    (coRunClientCheck ts c ≠ [] ↔
      (∃ tid ∈ ts, tid ∈ c.RequestedTaskIDs) ∧ (∃ tid ∈ ts, tid ∉ c.RequestedTaskIDs)) ∧
    (∀ e ∈ coRunClientCheck ts c,
      e.rowId = c.ClientID ∧ e.field = "RequestedTaskIDs" ∧ e.severity = .warning) ∧
    (coRunClientCheck ts c).length ≤ 1 := by
  refine ⟨?_, ?_, ?_, ?_⟩
  · rw [ruleErrors_coRun d r htype]
    unfold coRunRuleErrors coRunTaskIds
    rw [hts]
    rfl
  · unfold coRunClientCheck
    have h1 : 0 < (ts.filter (fun tid => tid ∈ c.RequestedTaskIDs)).length ↔
        ∃ tid ∈ ts, tid ∈ c.RequestedTaskIDs := by
      rw [List.length_pos]
      constructor
      · intro hne
        rcases List.exists_mem_of_ne_nil _ hne with ⟨tid, htid⟩
        rw [List.mem_filter] at htid
        exact ⟨tid, htid.1, by simpa using htid.2⟩
      · rintro ⟨tid, hmem, hreq⟩
        exact List.ne_nil_of_mem (List.mem_filter.mpr ⟨hmem, by simpa using hreq⟩)
    have h2 : (ts.filter (fun tid => tid ∈ c.RequestedTaskIDs)).length < ts.length ↔
        ∃ tid ∈ ts, tid ∉ c.RequestedTaskIDs := by
      rw [List.length_filter_lt_length_iff_exists]
      simp
    by_cases hcond : 0 < (ts.filter (fun tid => tid ∈ c.RequestedTaskIDs)).length ∧
        (ts.filter (fun tid => tid ∈ c.RequestedTaskIDs)).length < ts.length
    · rw [if_pos hcond]
      simp only [ne_eq, List.cons_ne_nil, not_false_eq_true, true_iff]
      exact ⟨h1.mp hcond.1, h2.mp hcond.2⟩
    · rw [if_neg hcond]
      simp only [ne_eq, not_true_eq_false, false_iff]
      intro ⟨ha, hb⟩
      exact hcond ⟨h1.mpr ha, h2.mpr hb⟩
  · intro e he
    unfold coRunClientCheck at he
    split at he
    · rw [List.mem_singleton] at he
      subst he
      exact ⟨rfl, rfl, rfl⟩
    · exact absurd he (List.not_mem_nil _)
  · unfold coRunClientCheck
    split <;> simp

/-- Spec example dataset for C6. -/
def dC6 : AppData :=
  ⟨[{ ClientID := "C1", PriorityLevel := 3, RequestedTaskIDs := ["T1"] }], [], [], []⟩

/-- Spec example rule for C6. -/
def rC6 : Rule := { type := "coRun", taskIds := some ["T1", "T2"] }

/-- Spec example client for C6. -/
def cC6 : Client := { ClientID := "C1", PriorityLevel := 3, RequestedTaskIDs := ["T1"] }

/-- Witness for C6: the client requesting `"T1"` out of `["T1","T2"]` gets
an issue. -/
theorem coRun_partial_commitment_witness :
    ruleErrors dC6 rC6 = .ok (dC6.clients.flatMap (coRunClientCheck ["T1", "T2"])) ∧
    coRunClientCheck ["T1", "T2"] cC6 ≠ [] :=
  ⟨(coRun_partial_commitment dC6 rC6 ["T1", "T2"] cC6 rfl rfl (by decide)).1,
   (coRun_partial_commitment dC6 rC6 ["T1", "T2"] cC6 rfl rfl (by decide)).2.1.mpr
     (by decide)⟩

/-- C4: the phase-window check.  On a `phaseWindow` rule carrying
`allowedPhases`: no issue when no task matches `taskId`; for the first
matching task no issue when its `PreferredPhases` is empty; otherwise
exactly one `error` on that task's `PreferredPhases` field when the
intersection with `allowedPhases` is empty, and no issue when the
intersection is non-empty. -/
theorem phase_window_conflict (d : AppData) (r : Rule) (aps : List Int)
    (htype : r.type = "phaseWindow") (haps : r.allowedPhases = some aps) :
    (d.tasks.find? (pwTaskMatch r) = none → ruleErrors d r = .ok []) ∧
    (∀ t, d.tasks.find? (pwTaskMatch r) = some t →
      (pwErr t aps).rowId = t.TaskID ∧ (pwErr t aps).field = "PreferredPhases" ∧
      (pwErr t aps).severity = .error ∧
      (t.PreferredPhases = [] → ruleErrors d r = .ok []) ∧
      (t.PreferredPhases ≠ [] →
        ((¬ ∃ p ∈ t.PreferredPhases, p ∈ aps) → ruleErrors d r = .ok [pwErr t aps]) ∧
        ((∃ p ∈ t.PreferredPhases, p ∈ aps) → ruleErrors d r = .ok []))) := by
  have hre := ruleErrors_phaseWindow d r htype
  constructor
  · intro hnone
    rw [hre]
    simp only [phaseWindowRuleErrors, hnone]
  · intro t hfind
    refine ⟨rfl, rfl, rfl, ?_, ?_⟩
    · intro hempty
      rw [hre]
      simp only [phaseWindowRuleErrors, hfind, if_pos hempty]
    · intro hne
      constructor
      · intro hno
        have hfil : t.PreferredPhases.filter (fun p => p ∈ aps) = [] := by
          rw [List.filter_eq_nil_iff]
          intro p hp
          simpa using fun hin => hno ⟨p, hp, hin⟩
        rw [hre]
        simp only [phaseWindowRuleErrors, hfind, haps]
        rw [if_neg hne, if_pos hfil]
      · rintro ⟨p, hp, hin⟩
        have hfil : t.PreferredPhases.filter (fun p => p ∈ aps) ≠ [] :=
          List.ne_nil_of_mem (List.mem_filter.mpr ⟨hp, by simpa using hin⟩)
        rw [hre]
        simp only [phaseWindowRuleErrors, hfind, haps]
        rw [if_neg hne, if_neg hfil]

/-- Spec example dataset for C4: task `T5` preferring phases 1 and 2. -/
def dC4 : AppData := ⟨[], [], [{ TaskID := "T5", PreferredPhases := [1, 2] }], []⟩

/-- The task row of `dC4`. -/
def tC4 : Task := { TaskID := "T5", PreferredPhases := [1, 2] }

/-- Spec example rule for C4: disjoint window. -/
def rC4a : Rule := { type := "phaseWindow", taskId := some "T5", allowedPhases := some [3, 4] }

/-- Spec example rule for C4: overlapping window. -/
def rC4b : Rule := { type := "phaseWindow", taskId := some "T5", allowedPhases := some [2, 3] }

/-- Witness for C4: the spec's two `PhaseWindow` examples: `[3,4]` yields
exactly one error, `[2,3]` yields none. -/
theorem phase_window_conflict_witness :
    ruleErrors dC4 rC4a = .ok [pwErr tC4 [3, 4]] ∧ ruleErrors dC4 rC4b = .ok [] :=
  ⟨(((phase_window_conflict dC4 rC4a [3, 4] rfl rfl).2 tC4 (by decide)).2.2.2.2
      (by decide)).1 (by decide),
   (((phase_window_conflict dC4 rC4b [2, 3] rfl rfl).2 tC4 (by decide)).2.2.2.2
      (by decide)).2 (by decide)⟩

/-! ## Fail-open behaviour of the rule pass (C3) -/

/-- The one condition under which `validateRules` throws: a `phaseWindow`
rule with no `allowedPhases` whose `taskId` matches a task with a non-empty
`PreferredPhases` (the source then reads `.includes` off `undefined`). -/
def pwThrow (d : AppData) (r : Rule) : Prop :=
  r.type = "phaseWindow" ∧ r.allowedPhases = none ∧
    ∃ t, d.tasks.find? (pwTaskMatch r) = some t ∧ t.PreferredPhases ≠ []

/-- `isOk` of a completed rule evaluation. -/
theorem isOk_ok (l : List ValidationError) :
    (Except.ok l : Except String (List ValidationError)).isOk = true := rfl

/-- `isOk` of a thrown rule evaluation. -/
theorem isOk_error (e : String) :
    (Except.error e : Except String (List ValidationError)).isOk = false := rfl

/-- A single rule's evaluation completes exactly when the phase-window throw
condition does not hold for it. -/
theorem ruleErrors_isOk_iff (d : AppData) (r : Rule) :
    (ruleErrors d r).isOk = true ↔ ¬ pwThrow d r := by
  by_cases htype : r.type = "phaseWindow"
  · rw [ruleErrors_phaseWindow d r htype]
    cases hfind : d.tasks.find? (pwTaskMatch r) with
    | none =>
      simp only [phaseWindowRuleErrors, hfind]
      refine iff_of_true (isOk_ok []) ?_
      unfold pwThrow
      rintro ⟨_, _, t, hsome, _⟩
      rw [hfind] at hsome
      cases hsome
    | some t =>
      by_cases hemp : t.PreferredPhases = []
      · simp only [phaseWindowRuleErrors, hfind, if_pos hemp]
        refine iff_of_true (isOk_ok []) ?_
        unfold pwThrow
        rintro ⟨_, _, t2, hsome, hne2⟩
        rw [hfind] at hsome
        injection hsome with h
        subst h
        exact hne2 hemp
      · cases haps : r.allowedPhases with
        | none =>
          simp only [phaseWindowRuleErrors, hfind, haps, if_neg hemp]
          refine iff_of_false ?_ ?_
          · rw [isOk_error]
            exact Bool.false_ne_true
          · unfold pwThrow
            exact not_not_intro ⟨htype, haps, t, hfind, hemp⟩
        | some aps =>
          simp only [phaseWindowRuleErrors, hfind, haps, if_neg hemp]
          refine iff_of_true ?_ ?_
          · split <;> exact isOk_ok _
          · unfold pwThrow
            rintro ⟨_, hnone, _⟩
            rw [haps] at hnone
            cases hnone
  · have hok : ∃ l, ruleErrors d r = .ok l := by
      unfold ruleErrors
      rw [if_neg htype]
      exact ⟨_, rfl⟩
    rcases hok with ⟨l, hl⟩
    rw [hl]
    refine iff_of_true (isOk_ok l) ?_
    unfold pwThrow
    rintro ⟨h, _⟩
    exact htype h

/-- The rule loop completes exactly when every rule's evaluation does. -/
theorem validateRulesAux_isOk (d : AppData) :
    ∀ rs : List Rule,
      (validateRulesAux d rs).isOk = true ↔ ∀ r ∈ rs, (ruleErrors d r).isOk = true
  | [] => by simp [validateRulesAux, isOk_ok]
  | r :: rs => by
    have IH := validateRulesAux_isOk d rs
    cases hr : ruleErrors d r with
    | error e =>
      have hval : validateRulesAux d (r :: rs) = .error e := by
        unfold validateRulesAux
        rw [hr]
      rw [hval]
      constructor
      · intro h
        rw [isOk_error] at h
        cases h
      · intro hall
        have h := hall r (List.mem_cons_self r rs)
        rw [hr, isOk_error] at h
        cases h
    | ok es =>
      cases hrest : validateRulesAux d rs with
      | error e2 =>
        have hval : validateRulesAux d (r :: rs) = .error e2 := by
          unfold validateRulesAux
          rw [hr, hrest]
        rw [hval]
        constructor
        · intro h
          rw [isOk_error] at h
          cases h
        · intro hall
          have hrec := IH.mpr (fun r2 h2 => hall r2 (List.mem_cons_of_mem r h2))
          rw [hrest, isOk_error] at hrec
          cases hrec
      | ok rest =>
        have hval : validateRulesAux d (r :: rs) = .ok (es ++ rest) := by
          unfold validateRulesAux
          rw [hr, hrest]
        rw [hval]
        refine iff_of_true (isOk_ok _) ?_
        intro r2 h2
        rcases List.mem_cons.mp h2 with h3 | h3
        · subst h3
          rw [hr]
          exact isOk_ok es
        · exact IH.mp (by rw [hrest]; exact isOk_ok rest) r2 h3

/-- The orchestrator completes exactly when the rule pass does (the entity
and cross-entity validators are total). -/
theorem validateAllData_isOk (d : AppData) :
    (validateAllData d).isOk = (validateRules d).isOk := by
  unfold validateAllData
  cases h : validateRules d <;> rfl

/-- C3 (amended): the rule pass is fail-open for malformed `coRun` and
`slotRestriction` rules and for a `phaseWindow` rule with no `taskId` —
their checks are skipped and contribute no issues — but it is **not** total:
the pass completes iff no `phaseWindow` rule lacks `allowedPhases` while its
`taskId` matches a task with non-empty `PreferredPhases`; in that one case
the pass throws a `TypeError`. -/
theorem rules_fail_open (d : AppData) :
    ((validateAllData d).isOk = true ↔ ∀ r ∈ d.rules, ¬ pwThrow d r) ∧
    (∀ r : Rule, r.type = "coRun" → r.taskIds = none → r.tasks = none →
      ruleErrors d r = .ok []) ∧
    (∀ r : Rule, (r.type = "slotRestriction" ∨ r.type = "slot") →
      (strTruthy (jsOrStr r.groupTag r.group) = false ∨
        intTruthy (jsOrInt r.minCommonSlots r.minCount) = false) →
      ruleErrors d r = .ok []) ∧
    (∀ r : Rule, r.type = "phaseWindow" → r.taskId = none → ruleErrors d r = .ok []) := by
  refine ⟨?_, ?_, ?_, ?_⟩
  · rw [validateAllData_isOk]
    unfold validateRules
    rw [validateRulesAux_isOk]
    simp only [ruleErrors_isOk_iff]
  · intro r h1 h2 h3
    have hnone : coRunTaskIds r = none := by
      unfold coRunTaskIds
      rw [h2]
      show r.tasks = none
      exact h3
    have hnil : coRunRuleErrors d r = [] := by
      unfold coRunRuleErrors
      rw [hnone]
    rw [ruleErrors_coRun d r h1, hnil]
  · intro r htype hfalsy
    have hnil : slotRuleErrors d r = [] := by
      cases hg : jsOrStr r.groupTag r.group with
      | none =>
        unfold slotRuleErrors
        rw [hg]
      | some g =>
        cases hm : jsOrInt r.minCommonSlots r.minCount with
        | none =>
          unfold slotRuleErrors
          rw [hg, hm]
        | some m =>
          unfold slotRuleErrors
          rw [hg, hm]
          show (if g ≠ "" ∧ m ≠ 0 then slotBody d g m (effTargetGroup r) else []) = []
          rw [if_neg ?hguard]
          case hguard =>
            rintro ⟨hgne, hmne⟩
            rcases hfalsy with hf | hf
            · rw [hg] at hf
              unfold strTruthy at hf
              simp at hf
              exact hgne hf
            · rw [hm] at hf
              unfold intTruthy at hf
              simp at hf
              exact hmne hf
    rw [ruleErrors_slot d r htype, hnil]
  · intro r htype htid
    have hfind : d.tasks.find? (pwTaskMatch r) = none := by
      rw [List.find?_eq_none]
      intro t _
      unfold pwTaskMatch
      rw [htid]
      simp
    rw [ruleErrors_phaseWindow d r htype]
    unfold phaseWindowRuleErrors
    rw [hfind]

/-- An empty dataset for the C3 witness. -/
def dFO : AppData := ⟨[], [], [], []⟩

/-- A `coRun` rule with neither `taskIds` nor `tasks`, for the C3 witness. -/
def rFO : Rule := { type := "coRun" }

/-- Witness for C3: with no rules the pass completes, and a `coRun` rule
missing its task-id list is inert. -/
theorem rules_fail_open_witness :
    (validateAllData dFO).isOk = true ∧ ruleErrors dFO rFO = .ok [] :=
  ⟨(rules_fail_open dFO).1.mpr (by simp [dFO]),
   (rules_fail_open dFO).2.1 rFO rfl rfl rfl⟩

/-- The dataset refuting C3 as stated: a `phaseWindow` rule lacking
`allowedPhases` whose `taskId` matches a task with non-empty
`PreferredPhases`. -/
def dC3 : AppData :=
  ⟨[], [], [{ TaskID := "T1", PreferredPhases := [1] }],
   [{ type := "phaseWindow", taskId := some "T1" }]⟩

/-- Counterexample to C3 as stated: the single rule of `dC3` lacks the
expected `allowedPhases` field, yet the pass does not complete — it throws
(the claim demands completion with the rule silently inert). -/
theorem rules_fail_open_cex :
    (validateAllData dC3).isOk = false ∧
    dC3.rules.map Rule.allowedPhases = [none] := by
  decide

/-! ## Association-list and set lemmas for the correction claims -/

/-- Writing a key and reading it back yields the written value (case of an
existing key). -/
theorem getField_map_write (k : String) (v : Cell) :
    ∀ r : Row, r.any (fun p => p.1 == k) = true →
      getField (r.map (fun p => if p.1 == k then (k, v) else p)) k = some v
  | [], h => by cases h
  | p :: rest, h => by
    rw [List.map_cons]
    by_cases hp : p.1 == k
    · rw [if_pos hp]
      unfold getField
      rw [List.find?_cons_of_pos _ (by simp)]
      rfl
    · rw [if_neg hp]
      have hrest : rest.any (fun q => q.1 == k) = true := by
        rw [List.any_cons] at h
        rcases Bool.or_eq_true_iff.mp h with h1 | h1
        · exact absurd h1 hp
        · exact h1
      have IH := getField_map_write k v rest hrest
      unfold getField at IH ⊢
      rw [List.find?_cons_of_neg _ (by simpa using hp)]
      exact IH

/-- A key matched by no pair of a row is not found. -/
theorem find?_key_eq_none (k : String) (r : Row)
    (h : ¬ r.any (fun p => p.1 == k) = true) :
    r.find? (fun p => p.1 == k) = none := by
  rw [List.find?_eq_none]
  intro p hp
  exact fun hpk => h (List.any_eq_true.mpr ⟨p, hp, hpk⟩)

/-- `row[field]` after `{ ...row, [field]: v }` is `v`. -/
theorem getField_setField_same (r : Row) (k : String) (v : Cell) :
    getField (setField r k v) k = some v := by
  unfold setField
  by_cases hany : r.any (fun p => p.1 == k)
  · rw [if_pos hany]
    exact getField_map_write k v r hany
  · rw [if_neg hany]
    unfold getField
    rw [List.find?_append, find?_key_eq_none k r hany, Option.none_or]
    rw [List.find?_cons_of_pos _ (by simp)]
    rfl

/-- Rewriting the pairs keyed `k` does not disturb lookups of a key
`k' ≠ k`. -/
theorem find?_map_write_ne (k k' : String) (v : Cell) (h : k' ≠ k) :
    ∀ r : Row,
      (r.map (fun p => if p.1 == k then (k, v) else p)).find? (fun p => p.1 == k')
        = r.find? (fun p => p.1 == k')
  | [] => rfl
  | p :: rest => by
    rw [List.map_cons]
    by_cases hp : p.1 == k
    · have hpk : p.1 = k := by simpa using hp
      rw [if_pos hp]
      simp only [List.find?_cons]
      have h1 : ((k, v).1 == k') = false := by simp [Ne.symm h]
      have h2 : (p.1 == k') = false := by simp [hpk, Ne.symm h]
      rw [h1, h2]
      simp only [cond_false]
      exact find?_map_write_ne k k' v h rest
    · rw [if_neg hp]
      simp only [List.find?_cons]
      cases hpk : (p.1 == k') with
      | true => simp only [cond_true]
      | false =>
        simp only [cond_false]
        exact find?_map_write_ne k k' v h rest

/-- `{ ...row, [field]: v }` leaves every other key's value unchanged. -/
theorem getField_setField_ne (r : Row) (k k' : String) (v : Cell) (h : k' ≠ k) :
    getField (setField r k v) k' = getField r k' := by
  unfold setField
  by_cases hany : r.any (fun p => p.1 == k)
  · rw [if_pos hany]
    unfold getField
    rw [find?_map_write_ne k k' v h r]
  · rw [if_neg hany]
    unfold getField
    rw [List.find?_append]
    rw [List.find?_cons_of_neg _ (by simpa using Ne.symm h)]
    simp

/-- Writing the same key twice keeps only the last write. -/
theorem setField_setField_same (r : Row) (k : String) (v w : Cell) :
    setField (setField r k v) k w = setField r k w := by
  unfold setField
  by_cases hany : r.any (fun p => p.1 == k)
  · simp only [if_pos hany]
    have hany2 : (r.map (fun p => if p.1 == k then (k, v) else p)).any
        (fun p => p.1 == k) = true := by
      rcases List.any_eq_true.mp hany with ⟨p, hp, hpk⟩
      refine List.any_eq_true.mpr ⟨(k, v), ?_, by simp⟩
      rw [List.mem_map]
      exact ⟨p, hp, by rw [if_pos hpk]⟩
    rw [if_pos hany2, List.map_map]
    apply List.map_congr_left
    intro p _
    by_cases hpk : p.1 = k
    · simp [Function.comp_apply, hpk]
    · simp [Function.comp_apply, hpk]
  · simp only [if_neg hany]
    have hany3 : (r ++ [(k, v)]).any (fun p => p.1 == k) = true := by
      rw [List.any_append]
      simp
    rw [if_pos hany3, List.map_append]
    have hid : r.map (fun p => if p.1 == k then (k, w) else p) = r := by
      conv_rhs => rw [← List.map_id r]
      apply List.map_congr_left
      intro p hp
      rw [if_neg (fun hpk => hany (List.any_eq_true.mpr ⟨p, hp, hpk⟩))]
      rfl
    rw [hid]
    simp

/-! ## `jsSet` (JavaScript `Set`) lemmas -/

/-- Membership in the `Set`-building fold. -/
theorem mem_foldl_addUnique {α : Type} [DecidableEq α] :
    ∀ (l acc : List α) (x : α),
      x ∈ l.foldl (fun acc a => if a ∈ acc then acc else acc ++ [a]) acc
        ↔ x ∈ acc ∨ x ∈ l
  | [], acc, x => by simp
  | a :: l, acc, x => by
    rw [List.foldl_cons]
    by_cases h : a ∈ acc
    · rw [if_pos h, mem_foldl_addUnique l acc x]
      simp only [List.mem_cons]
      constructor
      · tauto
      · rintro (h1 | h1 | h1)
        · exact Or.inl h1
        · exact Or.inl (h1 ▸ h)
        · exact Or.inr h1
    · rw [if_neg h, mem_foldl_addUnique l (acc ++ [a]) x]
      simp only [List.mem_append, List.mem_singleton, List.mem_cons]
      tauto

/-- `jsSet` preserves membership. -/
theorem mem_jsSet {α : Type} [DecidableEq α] (l : List α) (x : α) :
    x ∈ jsSet l ↔ x ∈ l := by
  unfold jsSet
  rw [mem_foldl_addUnique]
  simp

/-- The `Set`-building fold keeps its accumulator duplicate-free. -/
theorem nodup_foldl_addUnique {α : Type} [DecidableEq α] :
    ∀ (l acc : List α), acc.Nodup →
      (l.foldl (fun acc a => if a ∈ acc then acc else acc ++ [a]) acc).Nodup
  | [], _, h => h
  | a :: l, acc, h => by
    rw [List.foldl_cons]
    by_cases ha : a ∈ acc
    · rw [if_pos ha]
      exact nodup_foldl_addUnique l acc h
    · rw [if_neg ha]
      exact nodup_foldl_addUnique l (acc ++ [a]) (by simp [List.nodup_append, h, ha])

/-- `jsSet` is duplicate-free. -/
theorem nodup_jsSet {α : Type} [DecidableEq α] (l : List α) : (jsSet l).Nodup :=
  nodup_foldl_addUnique l [] List.nodup_nil

/-- Elements already collected are ignored by the fold. -/
theorem foldl_addUnique_stable {α : Type} [DecidableEq α] :
    ∀ (l acc : List α), (∀ x ∈ l, x ∈ acc) →
      l.foldl (fun acc a => if a ∈ acc then acc else acc ++ [a]) acc = acc
  | [], _, _ => rfl
  | a :: l, acc, h => by
    rw [List.foldl_cons, if_pos (h a (List.mem_cons_self a l))]
    exact foldl_addUnique_stable l acc (fun x hx => h x (List.mem_cons_of_mem a hx))

/-- A fresh duplicate-free list is appended verbatim by the fold. -/
theorem foldl_addUnique_fresh {α : Type} [DecidableEq α] :
    ∀ (l acc : List α), l.Nodup → (∀ x ∈ l, x ∉ acc) →
      l.foldl (fun acc a => if a ∈ acc then acc else acc ++ [a]) acc = acc ++ l
  | [], acc, _, _ => by simp
  | a :: l, acc, hnd, hfresh => by
    rw [List.foldl_cons, if_neg (hfresh a (List.mem_cons_self a l))]
    rw [List.nodup_cons] at hnd
    rw [foldl_addUnique_fresh l (acc ++ [a]) hnd.2 ?hfresh2]
    · simp
    case hfresh2 =>
      intro x hx
      rw [List.mem_append, List.mem_singleton]
      rintro (h1 | h1)
      · exact hfresh x (List.mem_cons_of_mem a hx) h1
      · exact hnd.1 (h1 ▸ hx)

/-- `jsSet` fixes duplicate-free lists. -/
theorem jsSet_of_nodup {α : Type} [DecidableEq α] (l : List α) (h : l.Nodup) :
    jsSet l = l := by
  unfold jsSet
  rw [foldl_addUnique_fresh l [] h (by simp)]
  simp

/-- Re-translating a built set with already-present extras is the identity —
the algebraic heart of Append idempotence. -/
theorem jsSet_append_stable {α : Type} [DecidableEq α] (z extra : List α)
    (h : ∀ x ∈ extra, x ∈ z) :
    jsSet (jsSet z ++ extra) = jsSet z := by
  show (jsSet z ++ extra).foldl (fun acc a => if a ∈ acc then acc else acc ++ [a]) [] = jsSet z
  rw [List.foldl_append]
  have h1 : (jsSet z).foldl (fun acc a => if a ∈ acc then acc else acc ++ [a]) [] = jsSet z := by
    have := jsSet_of_nodup (jsSet z) (nodup_jsSet z)
    unfold jsSet at this ⊢
    exact this
  rw [h1]
  exact foldl_addUnique_stable extra (jsSet z)
    (fun x hx => (mem_jsSet z x).mpr (h x hx))

/-! ## Correction claims (C8, C9, C10) -/

/-- C8 (amended): `Replace` overwrites the targeted field outright.
`Append` performs the set-union write **only when the targeted field
currently holds an array**: the written value is duplicate-free and holds
exactly the union of the existing elements and the new value(s), the new
value coerced to a one-element sequence when scalar; on a non-array field
`Append` falls through to a plain overwrite.  The first matching row of the
table receives the write. -/
theorem correction_apply_semantics (r : Row) (c : Correction) :
    (c.correctionType = "REPLACE" →
      updateRow r c = setField r c.field c.newValue ∧
      getField (updateRow r c) c.field = some c.newValue) ∧
    (c.correctionType = "APPEND" → ∀ l, getField r c.field = some (.arr l) →
      getField (updateRow r c) c.field
          = some (.arr (jsSet (l ++ coerceVals c.newValue))) ∧
      (jsSet (l ++ coerceVals c.newValue)).Nodup ∧
      (∀ p : Prim, p ∈ jsSet (l ++ coerceVals c.newValue) ↔
        p ∈ l ∨ p ∈ coerceVals c.newValue)) ∧
    (∀ (r2 : Row) (rest : List Row), rowMatches c.rowId r2 = true →
      updateTable c (r2 :: rest) = some (updateRow r2 c :: rest)) := by
  refine ⟨?_, ?_, ?_⟩
  · intro hrep
    have hne : ¬ c.correctionType = "APPEND" := by
      rw [hrep]
      decide
    constructor
    · unfold updateRow
      rw [if_neg hne]
    · unfold updateRow
      rw [if_neg hne]
      exact getField_setField_same r c.field c.newValue
  · intro happ l hget
    have h1 : updateRow r c = setField r c.field (.arr (jsSet (l ++ coerceVals c.newValue))) := by
      unfold updateRow
      rw [if_pos happ, hget]
    refine ⟨?_, nodup_jsSet _, ?_⟩
    · rw [h1]
      exact getField_setField_same _ _ _
    · intro p
      rw [mem_jsSet, List.mem_append]
  · intro r2 rest hm
    unfold updateTable
    rw [if_pos hm]

/-- A task row whose `RequiredSkills` receives an appended skill, for the C8
witness. -/
def rW8 : Row := [("id", .prim (.s "T1")), ("RequiredSkills", .arr [.s "a"])]

/-- The `APPEND` correction of the C8 witness. -/
def cW8 : Correction := ⟨.s "T1", "tasks", "RequiredSkills", .arr [.s "b"], "APPEND"⟩

/-- Witness for C8: appending `["b"]` to the array field of `rW8` writes the
deduplicated union. -/
theorem correction_apply_semantics_witness :
    getField (updateRow rW8 cW8) cW8.field
      = some (.arr (jsSet ([Prim.s "a"] ++ coerceVals cW8.newValue))) :=
  ((correction_apply_semantics rW8 cW8).2.1 rfl [Prim.s "a"] rfl).1

/-- The row refuting C8 as stated: the targeted field holds the scalar
`5`. -/
def rC8 : Row := [("id", .prim (.n 1)), ("F", .prim (.n 5))]

/-- The `APPEND` correction refuting C8 as stated. -/
def cC8 : Correction := ⟨.n 1, "clients", "F", .prim (.n 7), "APPEND"⟩

/-- Counterexample to C8 as stated: applying the `APPEND` correction `cC8`
to a row whose targeted field holds the scalar `5` writes the scalar `7`
outright — not the deduplicated union of `{5}` and `{7}` the claim
demands (the existing value `5` is simply discarded). -/
theorem correction_apply_semantics_cex :
    cC8.correctionType = "APPEND" ∧
    getField rC8 cC8.field = some (.prim (.n 5)) ∧
    getField (updateRow rC8 cC8) cC8.field = some (.prim (.n 7)) := by
  decide

/-- The first matching row of an `APPEND` update on an array field is
updated to a fixed point: updating the resulting table again changes
nothing. -/
theorem updateTable_find_idem (c : Correction) (happ : c.correctionType = "APPEND") :
    ∀ (tbl : List Row) (r : Row) (l : List Prim),
      tbl.find? (rowMatches c.rowId) = some r →
      getField r c.field = some (.arr l) →
      ∃ tbl2, updateTable c tbl = some tbl2 ∧ updateTable c tbl2 = some tbl2
  | [], r, l, hfind, _ => by
    rw [List.find?_nil] at hfind
    cases hfind
  | r0 :: rest, r, l, hfind, hget => by
    by_cases hm : rowMatches c.rowId r0
    · rw [List.find?_cons_of_pos _ hm] at hfind
      injection hfind with hfind
      subst hfind
      have hfne : c.field ≠ "id" := by
        intro hf
        rw [hf] at hget
        unfold rowMatches at hm
        rw [hget, beq_iff_eq] at hm
        injection hm with hm2
        exact Cell.noConfusion hm2
      have hstep : ∀ (row : Row) (l2 : List Prim), getField row c.field = some (.arr l2) →
          updateRow row c
            = setField row c.field (.arr (jsSet (l2 ++ coerceVals c.newValue))) := by
        intro row l2 hg2
        unfold updateRow
        rw [if_pos happ, hg2]
      have hupd := hstep r0 l hget
      have hrow : rowMatches c.rowId (updateRow r0 c) = true := by
        unfold rowMatches at hm ⊢
        rw [hupd, getField_setField_ne r0 c.field "id" _ (Ne.symm hfne)]
        exact hm
      refine ⟨updateRow r0 c :: rest, ?_, ?_⟩
      · unfold updateTable
        rw [if_pos hm]
      · unfold updateTable
        rw [if_pos hrow]
        have hget2 : getField (updateRow r0 c) c.field
            = some (.arr (jsSet (l ++ coerceVals c.newValue))) := by
          rw [hupd]
          exact getField_setField_same _ _ _
        have hupdup : updateRow (updateRow r0 c) c = updateRow r0 c := by
          have h3 := hstep (updateRow r0 c) (jsSet (l ++ coerceVals c.newValue)) hget2
          rw [jsSet_append_stable (l ++ coerceVals c.newValue) (coerceVals c.newValue)
            (fun x hx => List.mem_append.mpr (Or.inr hx))] at h3
          rw [h3, hupd, setField_setField_same, ← hupd]
        rw [hupdup]
    · rw [List.find?_cons_of_neg _ hm] at hfind
      rcases updateTable_find_idem c happ rest r l hfind hget with ⟨tbl2, h1, h2⟩
      refine ⟨r0 :: tbl2, ?_, ?_⟩
      · unfold updateTable
        rw [if_neg hm, h1]
        rfl
      · unfold updateTable
        rw [if_neg hm, h2]
        rfl

/-- C9: Append idempotence.  When the targeted row exists and its targeted
field holds an array, applying the same `APPEND` correction twice leaves
exactly the state reached after applying it once (so in particular the
final field value, as a set, is the same). -/
theorem append_correction_idempotent (st : AppState) (c : Correction)
    (tbl : List Row) (r : Row) (l : List Prim)
    (happ : c.correctionType = "APPEND")
    (hget : stateGet st c.entityType = some tbl)
    (hfind : tbl.find? (rowMatches c.rowId) = some r)
    (hfield : getField r c.field = some (.arr l)) :
    applyCorrection (applyCorrection st c) c = applyCorrection st c := by
  rcases updateTable_find_idem c happ tbl r l hfind hfield with ⟨tbl2, h1, h2⟩
  have hkey : c.entityType = "clients" ∨ c.entityType = "workers" ∨
      c.entityType = "tasks" ∨ c.entityType = "rules" := by
    by_contra hk
    push_neg at hk
    unfold stateGet at hget
    rw [if_neg hk.1, if_neg hk.2.1, if_neg hk.2.2.1, if_neg hk.2.2.2] at hget
    cases hget
  have happly : applyCorrection st c = stateSet st c.entityType tbl2 := by
    unfold applyCorrection
    rw [hget]
    show (match updateTable c tbl with
      | none => st
      | some updated => stateSet st c.entityType updated) = stateSet st c.entityType tbl2
    rw [h1]
  have hget2 : stateGet (stateSet st c.entityType tbl2) c.entityType = some tbl2 := by
    rcases hkey with h | h | h | h <;> rw [h] <;> rfl
  have happly2 : applyCorrection (stateSet st c.entityType tbl2) c
      = stateSet (stateSet st c.entityType tbl2) c.entityType tbl2 := by
    unfold applyCorrection
    rw [hget2]
    show (match updateTable c tbl2 with
      | none => stateSet st c.entityType tbl2
      | some updated => stateSet (stateSet st c.entityType tbl2) c.entityType updated)
        = stateSet (stateSet st c.entityType tbl2) c.entityType tbl2
    rw [h2]
  have hsetset : stateSet (stateSet st c.entityType tbl2) c.entityType tbl2
      = stateSet st c.entityType tbl2 := by
    rcases hkey with h | h | h | h <;> rw [h] <;> rfl
  rw [happly, happly2, hsetset]

/-- A one-worker state for the C9 witness. -/
def stW9 : AppState :=
  ⟨[[("id", .prim (.s "W1")), ("Skills", .arr [.s "a", .s "b"])]], [], [], []⟩

/-- The `APPEND` correction of the C9 witness. -/
def cW9 : Correction := ⟨.s "W1", "clients", "Skills", .arr [.s "b", .s "c"], "APPEND"⟩

/-- Witness for C9: appending `["b","c"]` to the Skills array twice equals
appending it once. -/
theorem append_correction_idempotent_witness :
    applyCorrection (applyCorrection stW9 cW9) cW9 = applyCorrection stW9 cW9 :=
  append_correction_idempotent stW9 cW9 stW9.clients
    [("id", .prim (.s "W1")), ("Skills", .arr [.s "a", .s "b"])]
    [.s "a", .s "b"] rfl rfl rfl rfl

/-- A table with no row matching the correction is left untouched
(`rowIndex === -1`). -/
theorem updateTable_eq_none (c : Correction) :
    ∀ tbl : List Row, (∀ r ∈ tbl, rowMatches c.rowId r = false) →
      updateTable c tbl = none
  | [], _ => rfl
  | r0 :: rest, h => by
    unfold updateTable
    rw [if_neg (fun heq => by rw [h r0 (List.mem_cons_self r0 rest)] at heq; cases heq)]
    rw [updateTable_eq_none c rest (fun r hr => h r (List.mem_cons_of_mem r0 hr))]
    rfl

/-- C10 (amended): correction application is atomic on lookup failure: an
`entityType` that is not a key of the state object (`clients`, `workers`,
`tasks` — or `rules`, which the dynamic lookup also reaches) leaves the
state unchanged, as does a `rowId` matching no row of the targeted table. -/
theorem correction_lookup_atomic (st : AppState) (c : Correction) :
    (c.entityType ∉ (["clients", "workers", "tasks", "rules"] : List String) →
      stateGet st c.entityType = none) ∧
    (stateGet st c.entityType = none → applyCorrection st c = st) ∧
    (∀ tbl, stateGet st c.entityType = some tbl →
      (∀ r ∈ tbl, rowMatches c.rowId r = false) → applyCorrection st c = st) := by
  refine ⟨?_, ?_, ?_⟩
  · intro hmem
    unfold stateGet
    rw [if_neg (fun h => hmem (by rw [h]; decide)),
      if_neg (fun h => hmem (by rw [h]; decide)),
      if_neg (fun h => hmem (by rw [h]; decide)),
      if_neg (fun h => hmem (by rw [h]; decide))]
  · intro hnone
    unfold applyCorrection
    rw [hnone]
  · intro tbl hsome hnomatch
    unfold applyCorrection
    rw [hsome]
    show (match updateTable c tbl with
      | none => st
      | some updated => stateSet st c.entityType updated) = st
    rw [updateTable_eq_none c tbl hnomatch]

/-- An empty state for the C10 witness. -/
def stW10 : AppState := ⟨[], [], [], []⟩

/-- A correction with an unknown `entityType`, for the C10 witness. -/
def cW10 : Correction := ⟨.s "X", "bogus", "F", .prim (.n 1), "REPLACE"⟩

/-- A correction whose `rowId` matches nothing, for the C10 witness. -/
def cW10b : Correction := ⟨.s "X", "clients", "F", .prim (.n 1), "REPLACE"⟩

/-- Witness for C10: an unknown `entityType` and an unmatched `rowId` both
leave the state unchanged. -/
theorem correction_lookup_atomic_witness :
    applyCorrection stW10 cW10 = stW10 ∧ applyCorrection stW10 cW10b = stW10 :=
  ⟨(correction_lookup_atomic stW10 cW10).2.1 rfl,
   (correction_lookup_atomic stW10 cW10b).2.2 [] rfl (by simp)⟩

/-- The state refuting C10 as stated: one stored business rule. -/
def stC10 : AppState :=
  ⟨[], [], [], [[("id", .prim (.s "R1")), ("description", .prim (.s "old"))]]⟩

/-- The correction refuting C10 as stated: `entityType` is `"rules"`, which
names no entity table (`EntityType` is `clients | workers | tasks`), yet the
dynamic lookup `prev[entityType]` reaches the rule list. -/
def cC10 : Correction := ⟨.s "R1", "rules", "description", .prim (.s "new"), "REPLACE"⟩

/-- Counterexample to C10 as stated: applying `cC10` — whose `entityType`
names no entity table — changes the state: the matching rule's
`description` is overwritten. -/
theorem correction_lookup_atomic_cex :
    cC10.entityType = "rules" ∧
    applyCorrection stC10 cC10 ≠ stC10 ∧
    (applyCorrection stC10 cC10).rules ≠ stC10.rules := by
  decide

end DataAlchemist
